import Mathlib

/-!
A shallow embedding of the federation core in src/server_server.rs:
destination resolution and the signing object of send_request, the
per-PDU pipeline of send_transaction_message_route, the m.typing arm
of the EDU loop, storage-key construction, and the backfill walk of
get_missing_events_route. External collaborators (DNS, HTTP, the rooms
store, the state resolver, id parsing by the ruma library) are modelled
as environment parameters; everything the routes compute themselves is
translated directly from the source.
-/

namespace ServerServer

/-- Minimal JSON value model for EDU contents and request bodies. -/
inductive JsonV
  | null
  | jbool (b : Bool)
  | jstr (s : String)
  | jnum (n : Int)
deriving DecidableEq

/-- Lookup in a JSON object (serde map get): the first binding of the key. -/
def jget {α : Type} (m : List (String × α)) (k : String) : Option α :=
  (m.find? (fun p => p.1 == k)).map (fun p => p.2)

/-- Indexing a JSON object like serde Value indexing: Null when the key is missing. -/
def jgetD (m : List (String × JsonV)) (k : String) : JsonV :=
  (jget m k).getD JsonV.null

/-- Value as_str. -/
def asStr : JsonV → Option String
  | JsonV.jstr s => some s
  | _ => none

/-- Value as_bool. -/
def asBool : JsonV → Option Bool
  | JsonV.jbool b => some b
  | _ => none

/-- Environment of send_request destination resolution: the result of
request_well_known for a server name, and the first SRV record target of
srv_lookup for a lookup name (none when the lookup errors or returns no
record). -/
structure ResolverEnv where
  wellKnown : String → Option String
  srvFirstTarget : String → Option String

/-- trim_end_matches with the dot character on the SRV target. -/
def trimTrailingDots (s : String) : String :=
  String.mk ((s.toList.reverse.dropWhile (fun c => c == '.')).reverse)

/-- Whether find with the colon character succeeds, i.e. the name carries
an explicit port. -/
def hasPort (s : String) : Bool := s.toList.contains ':'

/-- Destination resolution in send_request: when well-known yields a
delegated hostname, try SRV on the delegated hostname and either take the
first target (remembering the delegated hostname as Host header) or fall
back to the delegated hostname with default port 8448; when well-known is
absent, use the original name with default port 8448 and no SRV attempt.
Returns the actual destination URL and the optional Host header. -/
def resolveActualDestination (env : ResolverEnv) (destination : String) :
    String × Option String :=
  match env.wellKnown destination with
  | some delegated =>
      match env.srvFirstTarget ("_matrix._tcp." ++ delegated) with
      | some target => ("https://" ++ trimTrailingDots target, some delegated)
      | none =>
          (if hasPort delegated then "https://" ++ delegated
           else "https://" ++ delegated ++ ":8448", none)
  | none =>
      (if hasPort destination then "https://" ++ destination
       else "https://" ++ destination ++ ":8448", none)

/-- Strict lexicographic order on the character lists of map keys, the
order a BTreeMap of strings sorts by (identical to byte order on the
ASCII keys used here). -/
def charListLt : List Char → List Char → Bool
  | _, [] => false
  | [], _ :: _ => true
  | a :: xs, b :: ys => decide (a.val < b.val) || (decide (a = b) && charListLt xs ys)

/-- Key order of the serde_json map. -/
def stringLt (a b : String) : Bool := charListLt a.toList b.toList

/-- Sorted-map insert for a serde_json map (a BTreeMap): keeps keys in
increasing order, replacing an existing binding. -/
def btreeInsert (m : List (String × JsonV)) (k : String) (v : JsonV) :
    List (String × JsonV) :=
  match m with
  | [] => [(k, v)]
  | (k0, v0) :: rest =>
      if stringLt k k0 then (k, v) :: (k0, v0) :: rest
      else if k = k0 then (k, v) :: rest
      else (k0, v0) :: btreeInsert rest k v

/-- The canonical signing object built in send_request: content is inserted
first and only when the HTTP body is non-empty, then method, uri, origin
and destination. The body parameter carries the decoded JSON body, none
when the body is empty. -/
def buildSigningObject (method uri origin destination : String) (body : Option JsonV) :
    List (String × JsonV) :=
  let m : List (String × JsonV) := []
  let m := match body with
    | some j => btreeInsert m "content" j
    | none => m
  let m := btreeInsert m "method" (JsonV.jstr method)
  let m := btreeInsert m "uri" (JsonV.jstr uri)
  let m := btreeInsert m "origin" (JsonV.jstr origin)
  btreeInsert m "destination" (JsonV.jstr destination)

/-- Outcome of the resolution-and-signing part of send_request. -/
structure PreparedRequest where
  actualDestination : String
  hostHeader : Option String
  signingObject : List (String × JsonV)

/-- The destination-resolution and signing-object part of send_request: the
actual destination and Host header come from resolution; the signing object
uses the original destination server name and the request path and query. -/
def prepareRequest (env : ResolverEnv) (origin destination method pathAndQuery : String)
    (body : Option JsonV) : PreparedRequest :=
  let r := resolveActualDestination env destination
  { actualDestination := r.1
    hostHeader := r.2
    signingObject := buildSigningObject method pathAndQuery origin destination body }

/-- Effect of the m.typing EDU arm on the typing store. -/
inductive TypingAction
  | add (userId roomId : String)
  | remove (userId roomId : String)
  | skip
  | crash
deriving DecidableEq

/-- A content field run through as_str and then the id constructor, both
unwrapped in the source: none is the path where the code would abort. -/
def parseId (parse : String → Option String) (v : JsonV) : Option String :=
  (asStr v).bind parse

/-- The m.typing arm of the EDU loop in send_transaction_message_route.
parseUser and parseRoom stand for the UserId and RoomId try_from
constructors of the ruma library. The crash result marks the paths where
the source unwraps a None and aborts the process. -/
def handleTypingEdu (parseUser parseRoom : String → Option String)
    (content : List (String × JsonV)) : TypingAction :=
  match jget content "typing" with
  | none => TypingAction.skip
  | some t =>
      if (asBool t).getD false then
        match parseId parseUser (jgetD content "user_id"),
              parseId parseRoom (jgetD content "room_id") with
        | some u, some r => TypingAction.add u r
        | _, _ => TypingAction.crash
      else
        match parseId parseUser (jgetD content "user_id"),
              parseId parseRoom (jgetD content "room_id") with
        | some u, some r => TypingAction.remove u r
        | _, _ => TypingAction.crash

/-- n-byte big-endian encoding, as count to_be_bytes produces for n = 8. -/
def toBEBytes : Nat → Nat → List Nat
  | 0, _ => []
  | n + 1, c => toBEBytes n (c / 256) ++ [c % 256]

/-- room_id as_bytes. -/
def roomIdBytes (roomId : String) : List Nat :=
  roomId.toUTF8.toList.map (fun b => b.toNat)

/-- Storage key of an appended PDU: room id bytes, 0xFF, big-endian 8-byte count. -/
def appendKeyBytes (rid : List Nat) (count : Nat) : List Nat :=
  rid ++ [255] ++ toBEBytes 8 count

/-- Storage key of a PDU inserted after an old count: the append key of the
old count with a single 0x01 byte pushed. -/
def insertKeyBytes (rid : List Nat) (oldCount : Nat) : List Nat :=
  appendKeyBytes rid oldCount ++ [1]

/-- Strict lexicographic order on byte strings: the order of Rust u8 slices
used by the storage iterator. -/
def bytesLt : List Nat → List Nat → Bool
  | _, [] => false
  | [], _ :: _ => true
  | a :: xs, b :: ys => decide (a < b) || (decide (a = b) && bytesLt xs ys)

/-- Typed view of an incoming PDU: the fields of PduEvent the transaction
route reads. The derived event id is computed by an external reference-hash
function and is therefore a parameter of the pipeline. -/
structure Pdu where
  room_id : String
  sender : String
  state_key : Option String
  prev_events : List String
  kind : String
deriving DecidableEq

/-- Body of the get_room_state response: pdus and auth_chain. -/
structure StateResponse where
  pdus : List Pdu
  auth_chain : List Pdu

/-- Result of the placement oracle get_closest_parent on the rooms store. -/
inductive ClosestParent
  | append
  | insert (oldCount : Nat)
deriving DecidableEq

/-- Outcome of one iteration of the PDU loop: an append with the computed
storage key, a recorded error string, or the panicking match arm. -/
inductive StepResult
  | ok (pduId : List Nat)
  | err (msg : String)
  | panicked
deriving DecidableEq

/-- BTreeMap insert keyed by strings: replace an existing binding, else add
the new binding. -/
def mapInsert {α : Type} (m : List (String × α)) (k : String) (v : α) :
    List (String × α) :=
  if m.any (fun p => p.1 == k) then
    m.map (fun p => if p.1 == k then (k, v) else p)
  else m ++ [(k, v)]

/-- Environment of the transaction route: the store predicates it consults
and the two external calls it makes per PDU. fetchState is the federation
request for the remote state snapshot; resolve is the external state
resolver, taking the room id, our projected state and their state map (the
auth-events map the source also passes is a deterministic function of these
two inputs). -/
structure Env where
  roomExists : String → Bool
  isJoined : String → String → Bool
  fetchState : String → String → Except String StateResponse
  getClosestParent : String → List String → List (String × Pdu) → Option ClosestParent
  roomStateFull : String → List ((String × String) × String)
  resolve : String → List ((String × String) × String) → List (String × Pdu) →
      Except String (List ((String × String) × String))

/-- their_current_state: response pdus chained with the auth chain, keyed by
the re-derived event id, collected into a map. -/
def buildTheirState (d : Pdu → String) (resp : StateResponse) : List (String × Pdu) :=
  (resp.pdus ++ resp.auth_chain).foldl (fun m p => mapInsert m (d p) p) []

/-- Placement and persistence: a fresh count on Append, the reused old count
with one 0x01 byte on Insert, and the panicking wildcard arm when the oracle
returns nothing. Returns the step outcome and the next counter value. -/
def placeAndAppend (env : Env) (roomId : String) (prevEvents : List String)
    (theirState : List (String × Pdu)) (count : Nat) : StepResult × Nat :=
  match env.getClosestParent roomId prevEvents theirState with
  | some ClosestParent.append =>
      (StepResult.ok (appendKeyBytes (roomIdBytes roomId) count), count + 1)
  | some (ClosestParent.insert oldCount) =>
      (StepResult.ok (insertKeyBytes (roomIdBytes roomId) oldCount), count)
  | none => (StepResult.panicked, count)

/-- One iteration of the PDU loop of send_transaction_message_route: the
room existence check, the remote state fetch, the build of
their_current_state, and the dispatch on the presence of state_key,
with the membership check and placement on the non-state side and the
state-resolver call on the state side. d is the derived-event-id function
of process_incoming_pdu. -/
def processPdu (env : Env) (d : Pdu → String) (pdu : Pdu) (count : Nat) :
    StepResult × Nat :=
  let eventId := d pdu
  if env.roomExists pdu.room_id then
    match env.fetchState pdu.room_id eventId with
    | Except.error e => (StepResult.err e, count)
    | Except.ok resp =>
        let theirState := buildTheirState d resp
        match pdu.state_key with
        | none =>
            if env.isJoined pdu.sender pdu.room_id then
              placeAndAppend env pdu.room_id pdu.prev_events theirState count
            else (StepResult.err "User is not in this room", count)
        | some _ =>
            match env.resolve pdu.room_id (env.roomStateFull pdu.room_id) theirState with
            | Except.ok resolved =>
                if (resolved.map Prod.snd).contains eventId then
                  placeAndAppend env pdu.room_id pdu.prev_events theirState count
                else
                  (StepResult.err
                    "This event failed authentication, not found in resolved set", count)
            | Except.error e => (StepResult.err e, count)
  else (StepResult.err "Room is unknown to this server", count)

/-- The PDU loop: fold over the transaction pdus, record one outcome per
derived event id into resolved_map, and abort the whole route (none) when
the placement wildcard arm panics. -/
def processTransaction (env : Env) (d : Pdu → String) :
    List Pdu → Nat → List (String × Except String Unit) →
    Option (List (String × Except String Unit))
  | [], _, m => some m
  | pdu :: rest, count, m =>
      match processPdu env d pdu count with
      | (StepResult.panicked, _) => none
      | (StepResult.ok _, c2) =>
          processTransaction env d rest c2 (mapInsert m (d pdu) (Except.ok ()))
      | (StepResult.err e, c2) =>
          processTransaction env d rest c2 (mapInsert m (d pdu) (Except.error e))

/-- A stored PDU as get_missing_events_route reads it back: its event_id
field and its prev_events list. -/
structure StoredPdu where
  event_id : String
  prev_events : List String
deriving DecidableEq

/-- The loop of get_missing_events_route: walk a queue seeded with
latest_events; while the collected events are below the limit, pop the next
id, skip ids the store does not know, do not emit and do not expand events
listed in earliest_events, and otherwise emit the event and enqueue its
prev_events. -/
def getMissingEvents (db : String → Option StoredPdu) (earliest : List String)
    (limit : Nat) : List String → List StoredPdu → List StoredPdu
  | [], events => events
  | id :: rest, events =>
      if events.length < limit then
        match db id with
        | none => getMissingEvents db earliest limit rest events
        | some pdu =>
            if pdu.event_id ∈ earliest then
              getMissingEvents db earliest limit rest events
            else
              getMissingEvents db earliest limit (rest ++ pdu.prev_events) (events ++ [pdu])
      else events
termination_by queue events => (limit - events.length, queue.length)
decreasing_by
  all_goals simp_wf
  all_goals first
    | exact Prod.Lex.right _ (Nat.lt_succ_self _)
    | (apply Prod.Lex.left; omega)

/-- get_missing_events_route: the walk seeded with latest_events and an
empty result list. -/
def getMissingEventsRoute (db : String → Option StoredPdu) (earliest latest : List String)
    (limit : Nat) : List StoredPdu :=
  getMissingEvents db earliest limit latest []

/-! Lemmas about the backfill walk. -/

theorem gme_not_in_earliest (db : String → Option StoredPdu) (earliest : List String)
    (limit : Nat) (queue : List String) (events : List StoredPdu) :
    (∀ p ∈ events, p.event_id ∉ earliest) →
    ∀ p ∈ getMissingEvents db earliest limit queue events, p.event_id ∉ earliest := by
  induction queue, events using getMissingEvents.induct db earliest limit with
  | case1 events =>
      intro h
      simpa [getMissingEvents] using h
  | case2 id rest events hlt hdb ih =>
      intro h
      simp only [getMissingEvents, hlt, if_true, hdb]
      exact ih h
  | case3 id rest events hlt pdu hdb hmem ih =>
      intro h
      simp only [getMissingEvents, hlt, if_true, hdb, hmem, if_pos]
      exact ih h
  | case4 id rest events hlt pdu hdb hmem ih =>
      intro h
      simp only [getMissingEvents, hlt, if_true, hdb, hmem, if_neg]
      refine ih ?_
      intro p hp
      rcases List.mem_append.mp hp with hp | hp
      · exact h p hp
      · rcases List.mem_singleton.mp hp with rfl
        exact hmem
  | case5 id rest events hlt =>
      intro h
      simpa [getMissingEvents, hlt] using h

theorem gme_length_le (db : String → Option StoredPdu) (earliest : List String)
    (limit : Nat) (queue : List String) (events : List StoredPdu) :
    events.length ≤ limit →
    (getMissingEvents db earliest limit queue events).length ≤ limit := by
  induction queue, events using getMissingEvents.induct db earliest limit with
  | case1 events =>
      intro h
      simpa [getMissingEvents] using h
  | case2 id rest events hlt hdb ih =>
      intro h
      simp only [getMissingEvents, hlt, if_true, hdb]
      exact ih h
  | case3 id rest events hlt pdu hdb hmem ih =>
      intro h
      simp only [getMissingEvents, hlt, if_true, hdb, hmem, if_pos]
      exact ih h
  | case4 id rest events hlt pdu hdb hmem ih =>
      intro h
      simp only [getMissingEvents, hlt, if_true, hdb, hmem, if_neg]
      refine ih ?_
      simp only [List.length_append, List.length_singleton]
      omega
  | case5 id rest events hlt =>
      intro h
      simpa [getMissingEvents, hlt] using h

/-- Claim C8: the backfill response of get_missing_events_route never
contains an event whose event_id is listed in earliest_events, never
contains more than limit events, and a request with limit zero returns an
empty events list. -/
theorem c8_backfill_bounds (db : String → Option StoredPdu)
    (earliest latest : List String) (limit : Nat) :
    (∀ p ∈ getMissingEventsRoute db earliest latest limit, p.event_id ∉ earliest) ∧
    (getMissingEventsRoute db earliest latest limit).length ≤ limit ∧
    (limit = 0 → getMissingEventsRoute db earliest latest limit = []) := by
  refine ⟨gme_not_in_earliest db earliest limit latest [] (by simp),
    gme_length_le db earliest limit latest [] (by simp), ?_⟩
  intro h
  subst h
  have hlen := gme_length_le db earliest 0 latest [] (by simp)
  exact List.length_eq_zero.mp (Nat.le_zero.mp hlen)

/-- The chain room of scenario S6: a is the oldest event, d the newest. -/
def db8 : String → Option StoredPdu := fun id =>
  if id = "$a" then some ⟨"$a", []⟩
  else if id = "$b" then some ⟨"$b", ["$a"]⟩
  else if id = "$c" then some ⟨"$c", ["$b"]⟩
  else if id = "$d" then some ⟨"$d", ["$c"]⟩
  else none

theorem c8_backfill_bounds_witness :
    (∀ p ∈ getMissingEventsRoute db8 ["$b"] ["$d"] 10, p.event_id ∉ ["$b"]) ∧
    (getMissingEventsRoute db8 ["$b"] ["$d"] 10).length ≤ 10 ∧
    ((10 : Nat) = 0 → getMissingEventsRoute db8 ["$b"] ["$d"] 10 = []) :=
  c8_backfill_bounds db8 ["$b"] ["$d"] 10

/-- A diamond room: d and e both have prev_events pointing at a, so a is
reachable along two paths from the seed. -/
def pduA : StoredPdu := ⟨"$a", []⟩

def pduD : StoredPdu := ⟨"$d", ["$a"]⟩

def pduE : StoredPdu := ⟨"$e", ["$a"]⟩

def db9 : String → Option StoredPdu := fun id =>
  if id = "$a" then some pduA
  else if id = "$d" then some pduD
  else if id = "$e" then some pduE
  else none

/-- Claim C9: the walk keeps no visited set, so an event reachable along
two paths is emitted once per path, and each occurrence counts toward the
limit: with limit 10 the diamond yields the oldest event twice, and with
limit 3 the duplicate slot is what the limit cuts. -/
theorem c9_duplicate_emission :
    getMissingEventsRoute db9 [] ["$d", "$e"] 10 = [pduD, pduE, pduA, pduA] ∧
    (getMissingEventsRoute db9 [] ["$d", "$e"] 10).count pduA = 2 ∧
    getMissingEventsRoute db9 [] ["$d", "$e"] 3 = [pduD, pduE, pduA] := by
  have h1 : getMissingEventsRoute db9 [] ["$d", "$e"] 10 = [pduD, pduE, pduA, pduA] := by
    simp [getMissingEventsRoute, getMissingEvents, db9, pduA, pduD, pduE]
  refine ⟨h1, ?_, ?_⟩
  · rw [h1]; decide
  · simp [getMissingEventsRoute, getMissingEvents, db9, pduA, pduD, pduE]

/-! Destination resolution: C3. -/

/-- An environment with no well-known delegation but a live SRV record. -/
def envNoWellKnown : ResolverEnv :=
  { wellKnown := fun _ => none, srvFirstTarget := fun _ => some "srv.internal." }

/-- Claim C3 counterexample: with no well-known answer the code never
consults SRV, even though the SRV lookup for the original name would
return a record; the destination is the original name with default port
rather than the SRV target. -/
theorem c3_counterexample :
    envNoWellKnown.srvFirstTarget ("_matrix._tcp." ++ "example.org") = some "srv.internal." ∧
    resolveActualDestination envNoWellKnown "example.org" = ("https://example.org:8448", none) ∧
    ("https://example.org:8448" : String) ≠ "https://" ++ trimTrailingDots "srv.internal." := by
  refine ⟨rfl, by decide, by decide⟩

/-- Claim C3 as amended: the SRV lookup happens only when well-known yields
a delegated hostname; in that case a record gives the https URL of the
first target with trailing dots stripped and the Host header set to the
delegated hostname, while an empty lookup falls back to the delegated
hostname with port 8448 appended when it lacks one; when well-known is
absent the original name is used directly, with port 8448 appended when it
lacks one, and no Host header. -/
theorem c3_amended_resolution (env : ResolverEnv) (destination delegated target : String) :
    ((env.wellKnown destination = some delegated →
        (env.srvFirstTarget ("_matrix._tcp." ++ delegated) = some target →
          resolveActualDestination env destination =
            ("https://" ++ trimTrailingDots target, some delegated)) ∧
        (env.srvFirstTarget ("_matrix._tcp." ++ delegated) = none →
          hasPort delegated = false →
          resolveActualDestination env destination =
            ("https://" ++ delegated ++ ":8448", none))) ∧
      (env.wellKnown destination = none → hasPort destination = false →
        resolveActualDestination env destination =
          ("https://" ++ destination ++ ":8448", none))) := by
  refine ⟨fun hwk => ⟨fun hsrv => ?_, fun hsrv hport => ?_⟩, fun hwk hport => ?_⟩
  · simp [resolveActualDestination, hwk, hsrv]
  · simp [resolveActualDestination, hwk, hsrv, hport]
  · simp [resolveActualDestination, hwk, hport]

/-- Scenario S1 environment: delegation to matrix.example.org whose SRV
record points at federation.internal. -/
def envS1 : ResolverEnv :=
  { wellKnown := fun _ => some "matrix.example.org",
    srvFirstTarget := fun _ => some "federation.internal." }

theorem c3_amended_resolution_witness :
    ((envS1.wellKnown "example.org" = some "matrix.example.org" →
        (envS1.srvFirstTarget ("_matrix._tcp." ++ "matrix.example.org") =
            some "federation.internal." →
          resolveActualDestination envS1 "example.org" =
            ("https://" ++ trimTrailingDots "federation.internal.",
              some "matrix.example.org")) ∧
        (envS1.srvFirstTarget ("_matrix._tcp." ++ "matrix.example.org") = none →
          hasPort "matrix.example.org" = false →
          resolveActualDestination envS1 "example.org" =
            ("https://" ++ "matrix.example.org" ++ ":8448", none))) ∧
      (envS1.wellKnown "example.org" = none → hasPort "example.org" = false →
        resolveActualDestination envS1 "example.org" =
          ("https://" ++ "example.org" ++ ":8448", none))) :=
  c3_amended_resolution envS1 "example.org" "matrix.example.org" "federation.internal."

/-! The signing object: C4. -/

/-- Claim C4: the canonical signing object has exactly the members
destination, method, origin and uri when the body is empty, with content
added exactly when the body is non-empty; the destination member is the
original target server name and the uri member is the path and query; and
the object does not depend on how the destination was resolved. -/
theorem c4_signing_object_members (env env2 : ResolverEnv)
    (origin destination method pathAndQuery : String) :
    ((prepareRequest env origin destination method pathAndQuery none).signingObject.map
        Prod.fst = ["destination", "method", "origin", "uri"]) ∧
    (∀ body : JsonV,
      (prepareRequest env origin destination method pathAndQuery
          (some body)).signingObject.map Prod.fst =
        ["content", "destination", "method", "origin", "uri"]) ∧
    (∀ b : Option JsonV,
      jget (prepareRequest env origin destination method pathAndQuery b).signingObject
          "destination" = some (JsonV.jstr destination)) ∧
    (∀ b : Option JsonV,
      jget (prepareRequest env origin destination method pathAndQuery b).signingObject
          "uri" = some (JsonV.jstr pathAndQuery)) ∧
    (∀ b : Option JsonV,
      (prepareRequest env origin destination method pathAndQuery b).signingObject =
        (prepareRequest env2 origin destination method pathAndQuery b).signingObject) := by
  refine ⟨rfl, fun body => rfl, fun b => ?_, fun b => ?_, fun b => ?_⟩ <;> cases b <;> rfl

/-! Lemmas about byte-string order and big-endian encodings. -/

theorem toBEBytes_length (n c : Nat) : (toBEBytes n c).length = n := by
  induction n generalizing c with
  | zero => rfl
  | succ n ih => simp [toBEBytes, ih]

theorem bytesLt_self_append (xs : List Nat) (y : Nat) (ys : List Nat) :
    bytesLt xs (xs ++ y :: ys) = true := by
  induction xs with
  | nil => rfl
  | cons a rest ih => simp [bytesLt, ih]

theorem bytesLt_append_left (xs u v : List Nat) :
    bytesLt (xs ++ u) (xs ++ v) = bytesLt u v := by
  induction xs with
  | nil => rfl
  | cons a rest ih => simp [bytesLt, ih]

theorem bytesLt_append_of_lt (xs : List Nat) :
    ∀ ys u v : List Nat, xs.length = ys.length → bytesLt xs ys = true →
    bytesLt (xs ++ u) (ys ++ v) = true := by
  induction xs with
  | nil =>
      intro ys u v hlen h
      cases ys with
      | nil => simp [bytesLt] at h
      | cons b bs => simp at hlen
  | cons a rest ih =>
      intro ys u v hlen h
      cases ys with
      | nil => simp at hlen
      | cons b bs =>
          simp only [bytesLt, Bool.or_eq_true, Bool.and_eq_true, decide_eq_true_eq] at h
          rcases h with h | ⟨rfl, h⟩
          · simp [bytesLt, h]
          · simp only [List.length_cons, Nat.succ.injEq] at hlen
            simp [bytesLt, ih bs u v hlen h]

theorem toBEBytes_lt (n : Nat) :
    ∀ c c2 : Nat, c < c2 → c2 < 256 ^ n →
    bytesLt (toBEBytes n c) (toBEBytes n c2) = true := by
  induction n with
  | zero =>
      intro c c2 h hb
      simp only [pow_zero, Nat.lt_one_iff] at hb
      omega
  | succ n ih =>
      intro c c2 h hb
      have hq : c / 256 ≤ c2 / 256 := Nat.div_le_div_right (Nat.le_of_lt h)
      rcases Nat.lt_or_ge (c / 256) (c2 / 256) with hlt | hge
      · have hb2 : c2 / 256 < 256 ^ n := by
          rw [Nat.div_lt_iff_lt_mul (by norm_num : 0 < 256)]
          calc c2 < 256 ^ (n + 1) := hb
            _ = 256 ^ n * 256 := by ring
        have hpre := ih (c / 256) (c2 / 256) hlt hb2
        simpa [toBEBytes] using
          bytesLt_append_of_lt (toBEBytes n (c / 256)) (toBEBytes n (c2 / 256))
            [c % 256] [c2 % 256]
            (by rw [toBEBytes_length, toBEBytes_length]) hpre
      · have heq : c / 256 = c2 / 256 := Nat.le_antisymm hq hge
        have hmod : c % 256 < c2 % 256 := by
          have h1 := Nat.div_add_mod c 256
          have h2 := Nat.div_add_mod c2 256
          omega
        simp only [toBEBytes, heq, bytesLt_append_left]
        simp [bytesLt, hmod]

/-- Claim C5: storage keys within one room compare lexicographically per
intended causal order: append keys are strictly increasing in the embedded
count, and an insert key for an old count sits strictly between the append
key of that count and the append key of the next count. Counts are u64
values, hence below 2 to the 64. -/
theorem c5_storage_key_order (rid : List Nat) (c c2 : Nat)
    (h : c < c2) (hb : c2 < 2 ^ 64) :
    bytesLt (appendKeyBytes rid c) (appendKeyBytes rid c2) = true ∧
    bytesLt (appendKeyBytes rid c) (insertKeyBytes rid c) = true ∧
    bytesLt (insertKeyBytes rid c) (appendKeyBytes rid (c + 1)) = true := by
  have h256 : (2 : Nat) ^ 64 = 256 ^ 8 := by norm_num
  refine ⟨?_, ?_, ?_⟩
  · have := toBEBytes_lt 8 c c2 h (by rw [← h256]; exact hb)
    simpa [appendKeyBytes, List.append_assoc, bytesLt_append_left] using
      bytesLt_append_of_lt (toBEBytes 8 c) (toBEBytes 8 c2) [] []
        (by rw [toBEBytes_length, toBEBytes_length]) this
  · simpa [insertKeyBytes] using bytesLt_self_append (appendKeyBytes rid c) 1 []
  · have hlt : bytesLt (toBEBytes 8 c) (toBEBytes 8 (c + 1)) = true :=
      toBEBytes_lt 8 c (c + 1) (Nat.lt_succ_self c) (by rw [← h256]; omega)
    have hmain := bytesLt_append_of_lt (toBEBytes 8 c) (toBEBytes 8 (c + 1)) [1] []
      (by rw [toBEBytes_length, toBEBytes_length]) hlt
    simpa [insertKeyBytes, appendKeyBytes, List.append_assoc, bytesLt_append_left]
      using hmain

theorem c5_storage_key_order_witness :
    17 < 42 ∧ 42 < 2 ^ 64 ∧
    (bytesLt (appendKeyBytes [33, 114] 17) (appendKeyBytes [33, 114] 42) = true ∧
     bytesLt (appendKeyBytes [33, 114] 17) (insertKeyBytes [33, 114] 17) = true ∧
     bytesLt (insertKeyBytes [33, 114] 17) (appendKeyBytes [33, 114] 18) = true) :=
  ⟨by norm_num, by norm_num,
    c5_storage_key_order [33, 114] 17 42 (by norm_num) (by norm_num)⟩

/-! The insert-key aliasing bug: C6. -/

/-- An environment whose placement oracle answers Insert with old count 17
for every PDU of the room. -/
def envInsert17 : Env :=
  { roomExists := fun _ => true
    isJoined := fun _ _ => true
    fetchState := fun _ _ => Except.ok ⟨[], []⟩
    getClosestParent := fun _ _ _ => some (ClosestParent.insert 17)
    roomStateFull := fun _ => []
    resolve := fun _ _ _ => Except.ok [] }

def pduIns1 : Pdu := ⟨"!r", "@alice:s", none, ["$old"], "m.one"⟩

def pduIns2 : Pdu := ⟨"!r", "@alice:s", none, ["$old"], "m.two"⟩

/-- Claim C6 evaluated at the failing input: two distinct PDUs, both placed
by Insert with the same old count 17 in the same room, are given exactly the
same storage key; the code builds the key from the room id and the old count
alone and always pushes a single 0x01 byte, so it cannot extend the suffix. -/
theorem c6_insert_key_aliases :
    pduIns1 ≠ pduIns2 ∧
    (fun p : Pdu => p.kind) pduIns1 ≠ (fun p : Pdu => p.kind) pduIns2 ∧
    processPdu envInsert17 (fun p => p.kind) pduIns1 9 =
      (StepResult.ok (insertKeyBytes (roomIdBytes "!r") 17), 9) ∧
    processPdu envInsert17 (fun p => p.kind) pduIns2 9 =
      (StepResult.ok (insertKeyBytes (roomIdBytes "!r") 17), 9) := by
  refine ⟨by decide, by decide, rfl, rfl⟩

/-! The typing EDU arm: C7 and C10. -/

/-- Claim C7 evaluated at the failing input: an m.typing EDU whose content
has a typing field but no user_id reaches the unwrap of a None and aborts
the process, both on the typing true path and on the clear path, instead of
being skipped. The id parsers are instantiated with total functions, so the
crash stems from the missing field alone. -/
theorem c7_missing_field_crashes :
    handleTypingEdu some some [("typing", JsonV.jbool true)] = TypingAction.crash ∧
    handleTypingEdu some some
        [("typing", JsonV.jbool false), ("user_id", JsonV.jstr "@u:s")] =
      TypingAction.crash := by
  exact ⟨rfl, rfl⟩

/-- Claim C10: in an m.typing EDU with well-formed user_id and room_id and a
typing field present, every typing value other than the boolean true, the
boolean false as well as any non-boolean, leads to typing_remove with the
parsed ids, never to typing_add. -/
theorem c10_non_true_typing_clears
    (parseUser parseRoom : String → Option String) (content : List (String × JsonV))
    (u r u0 r0 : String) (t : JsonV)
    (hu : jget content "user_id" = some (JsonV.jstr u))
    (hr : jget content "room_id" = some (JsonV.jstr r))
    (hpu : parseUser u = some u0) (hpr : parseRoom r = some r0)
    (ht : jget content "typing" = some t) (hne : t ≠ JsonV.jbool true) :
    handleTypingEdu parseUser parseRoom content = TypingAction.remove u0 r0 := by
  have hb : (asBool t).getD false = false := by
    cases t with
    | jbool b =>
        cases b with
        | true => exact absurd rfl hne
        | false => rfl
    | null => rfl
    | jstr s => rfl
    | jnum n => rfl
  simp [handleTypingEdu, ht, hb, jgetD, hu, hr, parseId, asStr, hpu, hpr]

theorem c10_non_true_typing_clears_witness :
    handleTypingEdu some some
        [("typing", JsonV.jstr "yes"), ("user_id", JsonV.jstr "@u:s"),
         ("room_id", JsonV.jstr "!r:s")] =
      TypingAction.remove "@u:s" "!r:s" :=
  c10_non_true_typing_clears some some
    [("typing", JsonV.jstr "yes"), ("user_id", JsonV.jstr "@u:s"),
     ("room_id", JsonV.jstr "!r:s")]
    "@u:s" "!r:s" "@u:s" "!r:s" (JsonV.jstr "yes") rfl rfl rfl rfl rfl (by decide)

/-! Lemmas about the resolved map and the PDU loop: C1 and C2. -/

theorem mapInsert_keys_of_mem {α : Type} (m : List (String × α)) (k : String) (v : α)
    (h : k ∈ m.map Prod.fst) :
    (mapInsert m k v).map Prod.fst = m.map Prod.fst := by
  unfold mapInsert
  split
  · rw [List.map_map]
    apply List.map_congr_left
    intro p hp
    by_cases hpk : p.1 = k
    · simp [hpk]
    · simp [hpk]
  · rename_i hany
    exfalso
    apply hany
    simp only [List.any_eq_true, beq_iff_eq]
    rcases List.mem_map.mp h with ⟨p, hp, hpk⟩
    exact ⟨p, hp, hpk⟩

theorem mapInsert_keys_of_not_mem {α : Type} (m : List (String × α)) (k : String) (v : α)
    (h : k ∉ m.map Prod.fst) :
    (mapInsert m k v).map Prod.fst = m.map Prod.fst ++ [k] := by
  unfold mapInsert
  split
  · rename_i hany
    exfalso
    apply h
    simp only [List.any_eq_true, beq_iff_eq] at hany
    rcases hany with ⟨p, hp, hpk⟩
    exact List.mem_map.mpr ⟨p, hp, hpk⟩
  · simp

theorem mem_keys_mapInsert {α : Type} (m : List (String × α)) (k k2 : String) (v : α) :
    k2 ∈ (mapInsert m k v).map Prod.fst ↔ k2 ∈ m.map Prod.fst ∨ k2 = k := by
  by_cases hk : k ∈ m.map Prod.fst
  · rw [mapInsert_keys_of_mem m k v hk]
    constructor
    · exact Or.inl
    · rintro (h | rfl)
      · exact h
      · exact hk
  · rw [mapInsert_keys_of_not_mem m k v hk]
    simp

theorem nodup_keys_mapInsert {α : Type} (m : List (String × α)) (k : String) (v : α)
    (h : (m.map Prod.fst).Nodup) :
    ((mapInsert m k v).map Prod.fst).Nodup := by
  by_cases hk : k ∈ m.map Prod.fst
  · rw [mapInsert_keys_of_mem m k v hk]
    exact h
  · rw [mapInsert_keys_of_not_mem m k v hk]
    simp [List.nodup_append, h, hk]

theorem length_mapInsert_of_not_mem {α : Type} (m : List (String × α)) (k : String) (v : α)
    (h : k ∉ m.map Prod.fst) :
    (mapInsert m k v).length = m.length + 1 := by
  have := congrArg List.length (mapInsert_keys_of_not_mem m k v h)
  simpa using this

theorem pt_keys_iff (env : Env) (d : Pdu → String) :
    ∀ (pdus : List Pdu) (count : Nat) (m res : List (String × Except String Unit)),
      processTransaction env d pdus count m = some res →
      ∀ k, k ∈ res.map Prod.fst ↔ k ∈ m.map Prod.fst ∨ k ∈ pdus.map d := by
  intro pdus
  induction pdus with
  | nil =>
      intro count m res h k
      simp only [processTransaction, Option.some.injEq] at h
      subst h
      simp
  | cons p rest ih =>
      intro count m res h k
      simp only [processTransaction] at h
      rcases hstep : processPdu env d p count with ⟨sr, c2⟩
      rw [hstep] at h
      cases sr with
      | panicked => exact Option.noConfusion h
      | ok key =>
          rw [ih c2 (mapInsert m (d p) (Except.ok ())) res h k,
            mem_keys_mapInsert m (d p) k (Except.ok ())]
          simp only [List.map_cons, List.mem_cons]
          tauto
      | err e =>
          rw [ih c2 (mapInsert m (d p) (Except.error e)) res h k,
            mem_keys_mapInsert m (d p) k (Except.error e)]
          simp only [List.map_cons, List.mem_cons]
          tauto

theorem pt_keys_nodup (env : Env) (d : Pdu → String) :
    ∀ (pdus : List Pdu) (count : Nat) (m res : List (String × Except String Unit)),
      processTransaction env d pdus count m = some res →
      (m.map Prod.fst).Nodup → (res.map Prod.fst).Nodup := by
  intro pdus
  induction pdus with
  | nil =>
      intro count m res h hm
      simp only [processTransaction, Option.some.injEq] at h
      subst h
      exact hm
  | cons p rest ih =>
      intro count m res h hm
      simp only [processTransaction] at h
      rcases hstep : processPdu env d p count with ⟨sr, c2⟩
      rw [hstep] at h
      cases sr with
      | panicked => exact Option.noConfusion h
      | ok key => exact ih c2 _ res h (nodup_keys_mapInsert m (d p) _ hm)
      | err e => exact ih c2 _ res h (nodup_keys_mapInsert m (d p) _ hm)

theorem pt_length (env : Env) (d : Pdu → String) :
    ∀ (pdus : List Pdu) (count : Nat) (m res : List (String × Except String Unit)),
      processTransaction env d pdus count m = some res →
      (pdus.map d).Nodup → (∀ p ∈ pdus, d p ∉ m.map Prod.fst) →
      res.length = m.length + pdus.length := by
  intro pdus
  induction pdus with
  | nil =>
      intro count m res h _ _
      simp only [processTransaction, Option.some.injEq] at h
      subst h
      simp
  | cons p rest ih =>
      intro count m res h hnd hfresh
      simp only [List.map_cons, List.nodup_cons] at hnd
      have hp : d p ∉ m.map Prod.fst := hfresh p (List.mem_cons_self p rest)
      simp only [processTransaction] at h
      rcases hstep : processPdu env d p count with ⟨sr, c2⟩
      rw [hstep] at h
      have hfresh2 : ∀ v : Except String Unit, ∀ q ∈ rest,
          d q ∉ (mapInsert m (d p) v).map Prod.fst := by
        intro v q hq
        rw [mapInsert_keys_of_not_mem m (d p) v hp]
        simp only [List.mem_append, List.mem_singleton]
        rintro (hin | heq)
        · exact hfresh q (List.mem_cons_of_mem p hq) hin
        · exact hnd.1 (heq ▸ List.mem_map_of_mem d hq)
      cases sr with
      | panicked => exact Option.noConfusion h
      | ok key =>
          have := ih c2 _ res h hnd.2 (hfresh2 (Except.ok ()))
          rw [this, length_mapInsert_of_not_mem m (d p) _ hp]
          simp only [List.length_cons]
          omega
      | err e =>
          have := ih c2 _ res h hnd.2 (hfresh2 (Except.error e))
          rw [this, length_mapInsert_of_not_mem m (d p) _ hp]
          simp only [List.length_cons]
          omega

/-- An environment that knows no room: every PDU is answered with the
unknown-room error. -/
def envUnknownRoom : Env :=
  { roomExists := fun _ => false
    isJoined := fun _ _ => false
    fetchState := fun _ _ => Except.error "unreachable"
    getClosestParent := fun _ _ _ => none
    roomStateFull := fun _ => []
    resolve := fun _ _ _ => Except.error "unreachable" }

def pduDup : Pdu := ⟨"!r", "@alice:s", none, [], "m.msg"⟩

/-- Claim C2 counterexample: a transaction whose two input PDUs derive the
same event id produces a resolved map with a single entry, not one entry
per input PDU, because the BTreeMap insert overwrites the first outcome. -/
theorem c2_counterexample :
    processTransaction envUnknownRoom (fun p => p.kind) [pduDup, pduDup] 0 [] =
      some [("m.msg", Except.error "Room is unknown to this server")] ∧
    [pduDup, pduDup].length = 2 ∧
    ∀ res, processTransaction envUnknownRoom (fun p => p.kind) [pduDup, pduDup] 0 [] =
      some res → res.length ≠ [pduDup, pduDup].length := by
  refine ⟨rfl, rfl, ?_⟩
  intro res h
  have h0 : processTransaction envUnknownRoom (fun p => p.kind) [pduDup, pduDup] 0 [] =
      some [("m.msg", (Except.error "Room is unknown to this server" : Except String Unit))] :=
    rfl
  have h3 := Option.some.inj (h.symm.trans h0)
  subst h3
  decide

/-- Claim C2 as amended: the resolved map of a transaction that completes
without the placement panic has pairwise-distinct keys, its key set is
exactly the set of derived event ids of the input PDUs, and when the input
PDUs derive pairwise-distinct event ids the map has exactly one entry per
input PDU. -/
theorem c2_amended_resolved_map (env : Env) (d : Pdu → String) (pdus : List Pdu)
    (count : Nat) (res : List (String × Except String Unit))
    (h : processTransaction env d pdus count [] = some res) :
    (res.map Prod.fst).Nodup ∧
    (∀ k, k ∈ res.map Prod.fst ↔ k ∈ pdus.map d) ∧
    ((pdus.map d).Nodup → res.length = pdus.length) := by
  refine ⟨pt_keys_nodup env d pdus count [] res h (by simp), ?_, ?_⟩
  · intro k
    have := pt_keys_iff env d pdus count [] res h k
    simpa using this
  · intro hnd
    have := pt_length env d pdus count [] res h hnd (by simp)
    simpa using this

def pduK1 : Pdu := ⟨"!r", "@alice:s", none, [], "m.k1"⟩

def pduK2 : Pdu := ⟨"!r", "@alice:s", none, [], "m.k2"⟩

theorem c2_amended_resolved_map_witness :
    (([("m.k1", Except.error "Room is unknown to this server"),
       ("m.k2", Except.error "Room is unknown to this server")] :
        List (String × Except String Unit)).map Prod.fst).Nodup ∧
    (∀ k, k ∈ ([("m.k1", Except.error "Room is unknown to this server"),
       ("m.k2", Except.error "Room is unknown to this server")] :
        List (String × Except String Unit)).map Prod.fst ↔
      k ∈ [pduK1, pduK2].map (fun p => p.kind)) ∧
    (([pduK1, pduK2].map (fun p => p.kind)).Nodup →
      ([("m.k1", Except.error "Room is unknown to this server"),
        ("m.k2", Except.error "Room is unknown to this server")] :
         List (String × Except String Unit)).length = [pduK1, pduK2].length) :=
  c2_amended_resolved_map envUnknownRoom (fun p => p.kind) [pduK1, pduK2] 0 _ rfl

/-- Claim C1: for a state PDU in a known room whose remote state fetch
succeeded, the outcome recorded in the resolved map follows the state
resolver: when the resolver succeeds and the derived event id is among the
resolved values, the PDU is placed through the placement oracle, either
appended under a fresh count or inserted under the old count, and the map
records success; when the resolver succeeds without the id among the
values, the map records the fixed authentication-failure string; when the
resolver errors, the map records the error string. -/
theorem c1_state_pdu_dispatch (env : Env) (d : Pdu → String) (pdu : Pdu)
    (sk : String) (count : Nat) (resp : StateResponse)
    (hsk : pdu.state_key = some sk)
    (hroom : env.roomExists pdu.room_id = true)
    (hfetch : env.fetchState pdu.room_id (d pdu) = Except.ok resp) :
    (∀ resolved,
      env.resolve pdu.room_id (env.roomStateFull pdu.room_id) (buildTheirState d resp) =
        Except.ok resolved →
      (((resolved.map Prod.snd).contains (d pdu) = true →
        (env.getClosestParent pdu.room_id pdu.prev_events (buildTheirState d resp) =
            some ClosestParent.append →
          processPdu env d pdu count =
            (StepResult.ok (appendKeyBytes (roomIdBytes pdu.room_id) count), count + 1) ∧
          processTransaction env d [pdu] count [] = some [(d pdu, Except.ok ())]) ∧
        (∀ oldCount,
          env.getClosestParent pdu.room_id pdu.prev_events (buildTheirState d resp) =
              some (ClosestParent.insert oldCount) →
          processPdu env d pdu count =
            (StepResult.ok (insertKeyBytes (roomIdBytes pdu.room_id) oldCount), count) ∧
          processTransaction env d [pdu] count [] = some [(d pdu, Except.ok ())])) ∧
      ((resolved.map Prod.snd).contains (d pdu) = false →
        processTransaction env d [pdu] count [] =
          some [(d pdu,
            Except.error "This event failed authentication, not found in resolved set")]))) ∧
    (∀ e,
      env.resolve pdu.room_id (env.roomStateFull pdu.room_id) (buildTheirState d resp) =
        Except.error e →
      processTransaction env d [pdu] count [] = some [(d pdu, Except.error e)]) := by
  have hstate : processPdu env d pdu count =
      (match env.resolve pdu.room_id (env.roomStateFull pdu.room_id)
          (buildTheirState d resp) with
       | Except.ok resolved =>
           if (resolved.map Prod.snd).contains (d pdu) then
             placeAndAppend env pdu.room_id pdu.prev_events (buildTheirState d resp) count
           else
             (StepResult.err
               "This event failed authentication, not found in resolved set", count)
       | Except.error e => (StepResult.err e, count)) := by
    simp only [processPdu, hroom, hfetch, hsk, eq_self_iff_true, if_true]
  have hu : processTransaction env d [pdu] count [] =
      (match processPdu env d pdu count with
       | (StepResult.panicked, _) => none
       | (StepResult.ok _, c2) =>
           processTransaction env d [] c2 (mapInsert [] (d pdu) (Except.ok ()))
       | (StepResult.err e, c2) =>
           processTransaction env d [] c2 (mapInsert [] (d pdu) (Except.error e))) := rfl
  constructor
  · intro resolved hres
    constructor
    · intro hcont
      constructor
      · intro hplace
        have hpp : processPdu env d pdu count =
            (StepResult.ok (appendKeyBytes (roomIdBytes pdu.room_id) count), count + 1) := by
          rw [hstate]
          simp only [hres, hcont, eq_self_iff_true, if_true, placeAndAppend, hplace]
        exact ⟨hpp, by rw [hu, hpp]; rfl⟩
      · intro oldCount hplace
        have hpp : processPdu env d pdu count =
            (StepResult.ok (insertKeyBytes (roomIdBytes pdu.room_id) oldCount), count) := by
          rw [hstate]
          simp only [hres, hcont, eq_self_iff_true, if_true, placeAndAppend, hplace]
        exact ⟨hpp, by rw [hu, hpp]; rfl⟩
    · intro hcont
      have hpp : processPdu env d pdu count =
          (StepResult.err
            "This event failed authentication, not found in resolved set", count) := by
        rw [hstate]
        simp only [hres, hcont, Bool.false_eq_true, if_false]
      rw [hu, hpp]
      rfl
  · intro e hres
    have hpp : processPdu env d pdu count = (StepResult.err e, count) := by
      rw [hstate]
      simp only [hres]
    rw [hu, hpp]
    rfl

/-- A state PDU and an environment in which the resolver answers with a
state containing its derived id and the placement oracle answers Append. -/
def pduState : Pdu := ⟨"!r", "@alice:s", some "", [], "m.room.topic"⟩

def envC1 : Env :=
  { roomExists := fun _ => true
    isJoined := fun _ _ => true
    fetchState := fun _ _ => Except.ok ⟨[], []⟩
    getClosestParent := fun _ _ _ => some ClosestParent.append
    roomStateFull := fun _ => []
    resolve := fun _ _ _ => Except.ok [(("m.room.topic", ""), "m.room.topic")] }

theorem c1_state_pdu_dispatch_witness :
    processPdu envC1 (fun p => p.kind) pduState 5 =
      (StepResult.ok (appendKeyBytes (roomIdBytes pduState.room_id) 5), 6) ∧
    processTransaction envC1 (fun p => p.kind) [pduState] 5 [] =
      some [((fun p : Pdu => p.kind) pduState, Except.ok ())] :=
  ((((c1_state_pdu_dispatch envC1 (fun p => p.kind) pduState "" 5 ⟨[], []⟩
      rfl rfl rfl).1 [(("m.room.topic", ""), "m.room.topic")] rfl).1 rfl).1 rfl)

end ServerServer
